import Mathlib

/-!
# Verification of the nooterra-registry core

Shallow embedding of the agent registry and discovery service
(`src/server.ts`, `src/acard.ts`, `src/embeddings.ts`, `src/db.ts`,
`src/qdrant.ts`) and proofs about it.

Modelling conventions:
* JavaScript numbers are modelled as `ℚ` (exact arithmetic); timestamps in
  milliseconds as `ℤ`.
* `string | null | undefined` values are `Option String`; JavaScript
  truthiness of a string value (`""`, `null` and `undefined` are falsy) is
  made explicit via `jsTruthyS` / `strFalsy`.
* Opaque JSON payloads (`output_schema`, `metadata`, ...) are carried as
  `Option String` placeholders: the core never inspects them.
* External collaborators (Postgres, Qdrant, Ed25519, SHA-256, the sentence
  transformer) are parameters: the relational tables are explicit lists, the
  vector-search hit list, the signature verifier and the hash digest are
  arguments of the functions that consume them.
-/

namespace Nooterra

/-!
### Kernel-evaluable rational arithmetic

The standard `Rat.add`/`Rat.mul`/`Rat.div` are irreducible, which blocks
evaluation of closed statements inside the kernel.  The pipeline therefore
uses the following equivalent operations built on `Rat.divInt`; the
`q*_eq` lemmas identify them with the field operations of `ℚ`.
-/

/-- Multiplication on `ℚ` through `Rat.divInt` (equal to `a * b`). -/
def qmul (a b : ℚ) : ℚ := Rat.divInt (a.num * b.num) ((a.den : ℤ) * (b.den : ℤ))

/-- Addition on `ℚ` through `Rat.divInt` (equal to `a + b`). -/
def qadd (a b : ℚ) : ℚ :=
  Rat.divInt (a.num * (b.den : ℤ) + b.num * (a.den : ℤ)) ((a.den : ℤ) * (b.den : ℤ))

/-- Division on `ℚ` through `Rat.divInt` (equal to `a / b`). -/
def qdiv (a b : ℚ) : ℚ := Rat.divInt (a.num * (b.den : ℤ)) ((a.den : ℤ) * b.num)




/-- `Math.min` as an explicit conditional (kernel-evaluable). -/
def jsMin (a b : ℚ) : ℚ := if a ≤ b then a else b

/-- `Math.max` as an explicit conditional (kernel-evaluable). -/
def jsMax (a b : ℚ) : ℚ := if a ≤ b then b else a



/-- `Math.max(0, Math.min(1, x))`: clamping to `[0, 1]`. -/
def clamp01 (x : ℚ) : ℚ := jsMax 0 (jsMin 1 x)




/-- Integer ceiling of `a / 1000`, as computed by
`Math.ceil((resetAt - now) / 1000)`. -/
def ceilDiv1000 (a : ℤ) : ℤ := -((-a).fdiv 1000)


/-- JavaScript string truthiness for a `string | null | undefined` value:
`null`, `undefined` and `""` are falsy. -/
def jsTruthyS : Option String → Bool
  | none => false
  | some s => !(s == "")

/-- JavaScript `x || null` on a `string | undefined` value: an empty string
collapses to `null`. -/
def strFalsy : Option String → Option String
  | none => none
  | some s => if s = "" then none else some s

/-- ASCII lower-casing of one character (model of the lower-casing used by
`toLowerCase()` on the ASCII range). -/
def charLower (c : Char) : Char :=
  if 65 ≤ c.toNat ∧ c.toNat ≤ 90 then Char.ofNat (c.toNat + 32) else c

/-- Model of JavaScript `s.toLowerCase()` (ASCII range). -/
def lowerStr (s : String) : String := ⟨s.data.map charLower⟩

/-- Whitespace test used by the model of `trim()`. -/
def isWs (c : Char) : Bool := c = ' ' || c = '\t' || c = '\n' || c = '\r'

/-- Model of JavaScript `s.trim()`: strip whitespace from both ends. -/
def trimStr (s : String) : String :=
  ⟨((s.data.dropWhile isWs).reverse.dropWhile isWs).reverse⟩

/-!
## `src/acard.ts`: endpoint normalization

```
export function normalizeEndpoint(url: string | null | undefined): string | null {
  if (!url) return null;
  return url.endsWith("/") ? url.slice(0, -1) : url;
}
```
-/

/-- `normalizeEndpoint` from `src/acard.ts`: falsy input (null/undefined/`""`)
maps to null; a trailing `/` is stripped once; anything else is returned
unchanged. -/
def normalizeEndpoint (url : Option String) : Option String :=
  match url with
  | none => none
  | some s =>
    if s = "" then none
    else if s.data.getLast? = some '/' then some ⟨s.data.dropLast⟩
    else some s

/-!
## SQL `ILIKE` with a `%…%` pattern

The discovery keyword fallback runs
`capability_id ilike '%q%' or description ilike '%q%'` (case-insensitive
`LIKE`; `%` matches any sequence, `_` any single character).
-/

/-- SQL `LIKE` matching of a pattern (first argument) against a string, both
as character lists: `%` consumes any suffix, `_` any single character, any
other pattern character must match literally.  Structural recursion on the
pattern. -/
def likeMatch : List Char → List Char → Bool
  | [], s => s.isEmpty
  | p :: ps, s =>
    if p = '%' then (s.tails).any (fun t => likeMatch ps t)
    else
      match s with
      | [] => false
      | c :: s2 => (p == '_' || p == c) && likeMatch ps s2

/-- `s ILIKE '%' || q || '%'`: case-insensitive `LIKE` with the query wrapped
in `%` wildcards, as built by the discovery keyword fallback. -/
def ilikeContains (s q : String) : Bool :=
  likeMatch ('%' :: (lowerStr q).data ++ ['%']) (lowerStr s).data

/-!
## `src/embeddings.ts`: the embedder

`VECTOR_SIZE = 384`.  The model path returns the transformer output
mean-pooled and normalized by the model, then truncated or zero-padded to
384 entries.  The fallback path builds a vector from the SHA-256 digest of
the cleaned text and divides by its Euclidean norm (`|| 1` guard against a
zero norm).  SHA-256 itself is external: a digest is an arbitrary function
`Fin 32 → Fin 256`, and the divisor used by the fallback (`Math.sqrt` of the
squared norm, or `1` when that is zero) is an explicit parameter.
-/

/-- Fixed embedding dimension `VECTOR_SIZE` from `src/embeddings.ts`. -/
def VECTOR_SIZE : Nat := 384

/-- Squared Euclidean norm, as computed by
`vector.reduce((sum, v) => sum + v * v, 0)`. -/
def normSq (v : List ℚ) : ℚ := v.foldl (fun sum x => qadd sum (qmul x x)) 0

/-- The pre-normalization fallback vector of `hashBasedEmbedding`:
`v[i] = (hash[i % 32] / 127.5) - 1` for `i < 384`, where `hash` is the
SHA-256 digest (32 bytes) of the cleaned text. -/
def preVec (hash : Fin 32 → Fin 256) : List ℚ :=
  (List.range VECTOR_SIZE).map
    (fun i => ((hash ⟨i % 32, Nat.mod_lt _ (by decide)⟩ : ℕ) : ℚ) / 127.5 - 1)

/-- Pad-or-truncate of the model output to `VECTOR_SIZE` entries
(`embedding.slice(0, VECTOR_SIZE)` when at least 384 entries, otherwise
append zeros).  Note: the code performs no re-normalization here. -/
def fitToSize (emb : List ℚ) : List ℚ :=
  if VECTOR_SIZE ≤ emb.length then emb.take VECTOR_SIZE
  else emb ++ List.replicate (VECTOR_SIZE - emb.length) 0

/-- Which embedder path is active (the latched process-wide state), together
with its external data: the transformer output on a cleaned text, or the
SHA-256 digest plus the floating-point divisor `Math.sqrt(normSq) || 1`. -/
inductive EmbedderState where
  | model (output : String → List ℚ)
  | fallback (hash : String → Fin 32 → Fin 256) (divisor : String → ℚ)

/-- `embed(text)` from `src/embeddings.ts`: lowercase and trim; empty cleaned
input returns the all-zero vector; the model path pads/truncates the model
output to 384; the fallback path divides the hash-derived vector by its
norm. -/
def embed (st : EmbedderState) (text : String) : List ℚ :=
  let clean := trimStr (lowerStr text)
  if clean = "" then List.replicate VECTOR_SIZE 0
  else
    match st with
    | .model output => fitToSize (output clean)
    | .fallback hash divisor => (preVec (hash clean)).map (fun x => x / divisor clean)

/-!
## `src/server.ts`: per-IP fixed-window rate limiter

```
const bucket = rateBucket.get(ip);
if (!bucket || now > bucket.resetAt) {
  rateBucket.set(ip, { count: 1, resetAt: now + RATE_LIMIT_WINDOW_MS });
  return;
}
if (bucket.count >= RATE_LIMIT_MAX) {
  const retry = Math.max(0, Math.ceil((bucket.resetAt - now) / 1000));
  ... 429 with Retry-After: retry
}
bucket.count += 1;
```
-/

/-- One rate-limiter window entry: request count and window end. -/
structure Bucket where
  count : Nat
  resetAt : ℤ
deriving Repr, DecidableEq

/-- One step of `rateLimitGuard` for a single IP: given the optional window
entry and the request time, return the new entry and `none` when the request
is allowed, or `some retryAfter` when it is rejected with 429. -/
def rateLimitStep (maxN : Nat) (windowMs : ℤ) (bucket : Option Bucket) (now : ℤ) :
    Option Bucket × Option ℤ :=
  match bucket with
  | none => (some ⟨1, now + windowMs⟩, none)
  | some bk =>
    if now > bk.resetAt then (some ⟨1, now + windowMs⟩, none)
    else if maxN ≤ bk.count then
      (some bk,
        some (if ceilDiv1000 (bk.resetAt - now) < 0 then 0
              else ceilDiv1000 (bk.resetAt - now)))
    else (some ⟨bk.count + 1, bk.resetAt⟩, none)

/-- Run the rate limiter over a sequence of request times from one IP,
collecting each request's outcome (`none` = allowed, `some r` = 429 with
`Retry-After: r`). -/
def rateRun (maxN : Nat) (windowMs : ℤ) (bucket : Option Bucket) :
    List ℤ → Option Bucket × List (Option ℤ)
  | [] => (bucket, [])
  | t :: ts =>
    let (b1, o) := rateLimitStep maxN windowMs bucket t
    let (b2, os) := rateRun maxN windowMs b1 ts
    (b2, o :: os)

/-!
## Data model (`src/db.ts`, `src/acard.ts`, `src/qdrant.ts`)
-/

/-- A capability entry of a signed agent card (`ACARDCapability`). The
opaque JSON schemas are placeholders. -/
structure ACardCap where
  id : String
  description : String
  inputSchema : Option String
  outputSchema : Option String
  embeddingDim : Option ℤ
deriving Repr, DecidableEq

/-- A signed agent card (`ACARD` from `src/acard.ts`); `metadata` is opaque
JSON. -/
structure ACard where
  did : String
  endpoint : String
  publicKey : String
  version : ℤ
  lineage : Option String
  capabilities : List ACardCap
  metadata : Option String
deriving Repr, DecidableEq

/-- One row of the `agents` table (`src/db.ts` migration).  Nullable columns
are `Option`; `reputation` and `availability_score` are `numeric default 0`,
`last_seen timestamptz` (milliseconds since epoch here). -/
structure AgentRow where
  did : String
  name : Option String
  endpoint : Option String
  reputation : Option ℚ
  availability_score : Option ℚ
  last_seen : Option ℤ
  public_key : Option String
  acard_version : Option ℤ
  acard_lineage : Option String
  acard_signature : Option String
  acard_raw : Option ACard
  wallet_address : Option String
deriving Repr, DecidableEq

/-- One row of the `capabilities` table as written by the register handler
(the serial `id`, `price_cents` and `created_at` columns play no role in the
specified behaviour). -/
structure CapRow where
  agent_did : String
  capability_id : String
  description : String
  tags : List String
  output_schema : Option String
deriving Repr, DecidableEq

/-- The relational metadata store: the two tables. -/
structure Db where
  agents : List AgentRow
  capabilities : List CapRow
deriving Repr, DecidableEq

/-- The payload of one point of the Qdrant `capabilities` collection, exactly
as written by `upsertCapability` (`src/qdrant.ts`): `agentDid`,
`capabilityId`, `description`, `tags`.  The random point id and the stored
vector play no role in the properties below. -/
structure VPoint where
  agentDid : String
  capabilityId : String
  description : String
  tags : List String
deriving Repr, DecidableEq

/-!
## `src/server.ts`: the register pipeline
-/

/-- The register request body after zod validation (`registerSchema`).
`capabilityId` and `capability_id` are the two accepted aliases; opaque JSON
schemas are placeholders. -/
structure CapabilityInput where
  capabilityId : Option String
  capability_id : Option String
  description : String
  tags : Option (List String)
  input_schema : Option String
  output_schema : Option String
deriving Repr, DecidableEq

/-- A validated register request body. -/
structure RegisterBody where
  did : String
  name : Option String
  endpoint : Option String
  walletAddress : Option String
  capabilities : List CapabilityInput
  acard : Option ACard
  acard_signature : Option String
deriving Repr, DecidableEq

/-- A capability after id normalization in the register handler. -/
structure NormCap where
  capabilityId : String
  description : String
  tags : List String
  input_schema : Option String
  output_schema : Option String
deriving Repr, DecidableEq

/-- `cap.capabilityId || cap.capability_id || randomUUID()`: the falsy-based
alias choice, with `fresh i` standing for the `randomUUID()` result for the
`i`-th capability. -/
def normCaps (fresh : Nat → String) (caps : List CapabilityInput) : List NormCap :=
  caps.enum.map (fun p =>
    { capabilityId := ((strFalsy p.2.capabilityId).or (strFalsy p.2.capability_id)).getD (fresh p.1)
      description := p.2.description
      tags := p.2.tags.getD []
      input_schema := p.2.input_schema
      output_schema := p.2.output_schema })

/-- The column values handed to the agents upsert query. -/
structure AgentUpsert where
  did : String
  name : Option String
  endpoint : Option String
  public_key : Option String
  wallet_address : Option String
  acard_version : Option ℤ
  acard_lineage : Option String
  acard_signature : Option String
  acard_raw : Option ACard
deriving Repr, DecidableEq

/-- The `ON CONFLICT (did) DO UPDATE` row update: every listed column takes
the new value except `wallet_address`, which is
`coalesce(excluded.wallet_address, agents.wallet_address)`.  Columns not in
the update list (`reputation`, `availability_score`, `last_seen`,
`created_at`) keep their stored values. -/
def applyUpsert (old : AgentRow) (u : AgentUpsert) : AgentRow :=
  { old with
    name := u.name
    endpoint := u.endpoint
    public_key := u.public_key
    wallet_address := u.wallet_address.or old.wallet_address
    acard_version := u.acard_version
    acard_lineage := u.acard_lineage
    acard_signature := u.acard_signature
    acard_raw := u.acard_raw }

/-- A freshly inserted agent row: schema defaults `reputation = 0`,
`availability_score = 0`, `last_seen` null. -/
def freshAgentRow (u : AgentUpsert) : AgentRow :=
  { did := u.did, name := u.name, endpoint := u.endpoint
    reputation := some 0, availability_score := some 0, last_seen := none
    public_key := u.public_key
    acard_version := u.acard_version, acard_lineage := u.acard_lineage
    acard_signature := u.acard_signature, acard_raw := u.acard_raw
    wallet_address := u.wallet_address }

/-- `insert into agents ... on conflict (did) do update set ...`: update the
row keyed on `did` when it exists, else insert a new row with defaults. -/
def upsertAgent (agents : List AgentRow) (u : AgentUpsert) : List AgentRow :=
  if agents.any (fun r => r.did == u.did) then
    agents.map (fun r => if r.did == u.did then applyUpsert r u else r)
  else agents ++ [freshAgentRow u]

/-- The write phase of a successful register call:
upsert the agent row, delete the agent's capability rows, delete the agent's
vector points, then insert one vector point and one capability row per
normalized capability. -/
def registerWrites (db : Db) (vdb : List VPoint) (u : AgentUpsert)
    (caps : List NormCap) : Nat × Db × List VPoint :=
  let agents1 := upsertAgent db.agents u
  let caps1 := db.capabilities.filter (fun c => !(c.agent_did == u.did))
  let vdb1 := vdb.filter (fun p => !(p.agentDid == u.did))
  let newPoints := caps.map (fun c =>
    { agentDid := u.did, capabilityId := c.capabilityId
      description := c.description, tags := c.tags : VPoint })
  let newRows := caps.map (fun c =>
    { agent_did := u.did, capability_id := c.capabilityId
      description := c.description, tags := c.tags
      output_schema := c.output_schema : CapRow })
  (200, ⟨agents1, caps1 ++ newRows⟩, vdb1 ++ newPoints)

/-- The `POST /v1/agent/register` handler on a schema-valid body
(`src/server.ts` lines 148-260).  Returns the HTTP status and the two stores
after the call.  `verify` is the external Ed25519 card verifier
(`verifyACARD`), `fresh` the `randomUUID()` stream for missing capability
ids.  Every error reply happens before any store write. -/
def register (verify : ACard → String → Bool) (fresh : Nat → String)
    (db : Db) (vdb : List VPoint) (b : RegisterBody) : Nat × Db × List VPoint :=
  let caps := normCaps fresh b.capabilities
  let ep0 := normalizeEndpoint b.endpoint
  if b.acard.isSome || jsTruthyS b.acard_signature then
    match b.acard, b.acard_signature with
    | some card, some sig =>
      if sig = "" then (400, db, vdb)
      else
        let acardEndpoint := normalizeEndpoint (some card.endpoint)
        let epP := if jsTruthyS ep0 then ep0 else acardEndpoint
        if !jsTruthyS epP then (400, db, vdb)
        else if card.did ≠ b.did then (400, db, vdb)
        else if acardEndpoint ≠ epP then (400, db, vdb)
        else if !verify card sig then (401, db, vdb)
        else if caps.any (fun c =>
            !((card.capabilities.map (fun cc => cc.id)).contains c.capabilityId)) then
          (400, db, vdb)
        else
          registerWrites db vdb
            { did := b.did, name := strFalsy b.name, endpoint := epP
              public_key := some card.publicKey
              wallet_address := strFalsy (b.walletAddress.map lowerStr)
              acard_version := some card.version
              acard_lineage := card.lineage
              acard_signature := some sig
              acard_raw := some card } caps
    | _, _ => (400, db, vdb)
  else
    if !jsTruthyS ep0 then (400, db, vdb)
    else
      registerWrites db vdb
        { did := b.did, name := strFalsy b.name, endpoint := ep0
          public_key := none
          wallet_address := strFalsy (b.walletAddress.map lowerStr)
          acard_version := none, acard_lineage := none
          acard_signature := none, acard_raw := none } caps

/-- The `POST /v1/agent/availability` update:
`set availability_score = $1, last_seen = coalesce($2, now())` for the given
`did` (`nowMs` models the server-side `now()` fallback). -/
def applyAvailability (db : Db) (did : String) (a : ℚ) (lastSeen : Option ℤ)
    (nowMs : ℤ) : Db :=
  { db with agents := db.agents.map (fun r =>
      if r.did == did then
        { r with availability_score := some a
                 last_seen := some (lastSeen.getD nowMs) }
      else r) }

/-!
## `src/server.ts`: the discovery pipeline (lines 315-437)
-/

/-- The payload of a search hit.  Vector hits carry the four fields written
by `upsertCapability` (`reputation`, `availability_score` and `last_seen`
are absent, i.e. `none`); keyword hits additionally carry the three joined
agent columns. -/
structure HitPayload where
  agentDid : Option String
  capabilityId : Option String
  description : Option String
  tags : Option (List String)
  reputation : Option ℚ
  availability_score : Option ℚ
  last_seen : Option ℤ
deriving Repr, DecidableEq

/-- A search hit: a score (cosine similarity for vector hits, the fixed
stand-in `0.45` for keyword hits) and a payload. -/
structure Hit where
  score : ℚ
  payload : HitPayload
deriving Repr, DecidableEq

/-- One entry of the discovery result list. -/
structure DiscResult where
  score : ℚ
  vectorScore : ℚ
  reputationScore : ℚ
  availabilityScore : Option ℚ
  agentDid : Option String
  capabilityId : Option String
  description : Option String
  tags : Option (List String)
  reputation : Option ℚ
  agent : Option AgentRow
deriving Repr, DecidableEq

/-- The discovery configuration (environment values with their defaults). -/
structure Config where
  wSim : ℚ
  wRep : ℚ
  wAvail : ℚ
  heartbeatTTL : ℤ
deriving Repr, DecidableEq

/-- The defaults: `SEARCH_WEIGHT_SIM = 0.7`, `SEARCH_WEIGHT_REP = 0.25`,
`SEARCH_WEIGHT_AVAIL = 0.2`, `HEARTBEAT_TTL_MS = 60000`. -/
def defaultConfig : Config :=
  { wSim := Rat.divInt 7 10, wRep := Rat.divInt 1 4, wAvail := Rat.divInt 1 5
    heartbeatTTL := 60000 }

/-- The keyword fallback query: every capability row whose `capability_id`
or `description` matches `%query%` case-insensitively, joined with its agent
row, becomes a hit with the fixed stand-in score `0.45`. -/
def keywordHits (db : Db) (query : String) : List Hit :=
  db.capabilities.filterMap (fun c =>
    match db.agents.find? (fun a => a.did == c.agent_did) with
    | none => none
    | some a =>
      if ilikeContains c.capability_id query || ilikeContains c.description query then
        some { score := Rat.divInt 9 20
               payload := { agentDid := some c.agent_did
                            capabilityId := some c.capability_id
                            description := some c.description
                            tags := some c.tags
                            reputation := a.reputation
                            availability_score := a.availability_score
                            last_seen := a.last_seen } }
      else none)

/-- The batched agent lookup: `select ... from agents where did = any($1)`
over the dids collected from the hit payloads, presented as the
`agents[did]` record of the handler. -/
def agentsMapOf (db : Db) (hits : List Hit) : String → Option AgentRow :=
  fun d =>
    if (hits.filterMap (fun h => h.payload.agentDid)).contains d then
      db.agents.find? (fun a => a.did == d)
    else none

/-- The availability gate (lines 401-409): `null` when the agent is not in
the joined map; otherwise `0` when stale (`now - ts > 2 * HEARTBEAT_TTL_MS`,
with a null `last_seen` read as timestamp `0`), else the clamped
`availability_score`. -/
def availState (cfg : Config) (amap : String → Option AgentRow)
    (agentDid : Option String) (now : ℤ) : Option ℚ :=
  match amap (agentDid.getD "") with
  | none => none
  | some row =>
    let ts : ℤ := match row.last_seen with
      | some t => t
      | none => 0
    if now - ts > cfg.heartbeatTTL * 2 then some 0
    else some (clamp01 (row.availability_score.getD 0))

/-- Processing of one hit (the body of the `.map` at lines 386-432): extract
the payload fields, resolve the reputation (payload value, else joined agent
row), clamp it, compute the availability gate and the combined score. -/
def processHit (cfg : Config) (amap : String → Option AgentRow) (now : ℤ)
    (h : Hit) : DiscResult :=
  let agentDid := h.payload.agentDid
  let capabilityId := h.payload.capabilityId
  let description := h.payload.description
  let tags := h.payload.tags
  let reputation : Option ℚ :=
    match h.payload.reputation with
    | some r => some r
    | none =>
      match agentDid with
      | some d => (amap d).bind (fun a => a.reputation)
      | none => none
  let repScore := clamp01 (reputation.getD 0)
  let vectorScore := h.score
  let availabilityScore := availState cfg amap agentDid now
  let combinedScore :=
    qadd (qadd (qmul cfg.wSim vectorScore) (qmul cfg.wRep repScore))
      (qmul cfg.wAvail (availabilityScore.getD 0))
  { score := combinedScore
    vectorScore := vectorScore
    reputationScore := repScore
    availabilityScore := availabilityScore
    agentDid := agentDid
    capabilityId := capabilityId
    description := description
    tags := tags
    reputation := reputation
    agent :=
      match agentDid with
      | some d => if d = "" then none else amap d
      | none => none }

/-- The dedupe key: `(agentDid || "") + "|" + (capabilityId || "")`. -/
def dedupeKey (r : DiscResult) : String :=
  (r.agentDid.getD "") ++ "|" ++ (r.capabilityId.getD "")

/-- The `seenKey` dedupe of the handler: process the hits in order, skipping
every hit whose key has already been emitted. -/
def dedupeHits (cfg : Config) (amap : String → Option AgentRow) (now : ℤ) :
    List String → List Hit → List DiscResult
  | _, [] => []
  | seen, h :: rest =>
    let e := processHit cfg amap now h
    if seen.contains (dedupeKey e) then dedupeHits cfg amap now seen rest
    else e :: dedupeHits cfg amap now (dedupeKey e :: seen) rest

/-- The result filter (line 433): keep a result iff its availability
(`?? 0`) is strictly positive and its clamped reputation reaches
`minReputation`. -/
def keepResult (minRep : ℚ) (r : DiscResult) : Bool :=
  decide (0 < r.availabilityScore.getD 0) && decide (minRep ≤ r.reputationScore)

/-- Stable insertion of a result into a list sorted by descending score. -/
def insertDesc (x : DiscResult) : List DiscResult → List DiscResult
  | [] => [x]
  | y :: ys => if y.score ≤ x.score then x :: y :: ys else y :: insertDesc x ys

/-- The stable descending sort `(a, b) => b.score - a.score` (line 434). -/
def sortDesc : List DiscResult → List DiscResult
  | [] => []
  | x :: xs => insertDesc x (sortDesc xs)

/-- The `POST /v1/agent/discovery` handler on a schema-valid body: merge the
vector hits (a parameter: the Qdrant answer, or `[]` when the vector search
failed) with the keyword fallback, dedupe on the composite key, apply the
availability gate and the filter, and sort by descending combined score. -/
def discover (cfg : Config) (db : Db) (vhits : List Hit) (now : ℤ)
    (query : String) (minRep : ℚ) : List DiscResult :=
  let hits := vhits ++ keywordHits db query
  let amap := agentsMapOf db hits
  sortDesc ((dedupeHits cfg amap now [] hits).filter (keepResult minRep))

/-!
## Concrete fixtures used by counterexamples and witnesses
-/

/-- A model-path transformer output of native dimension 385 with unit
Euclidean norm: 384 zeros followed by a single 1. -/
def modelOut385 : String → List ℚ := fun _ => List.replicate 384 0 ++ [1]

/-- An agent row with full reputation and availability and a heartbeat at
time 100. -/
def agentRowA : AgentRow :=
  { did := "a", name := none, endpoint := none, reputation := some 1
    availability_score := some 1, last_seen := some 100, public_key := none
    acard_version := none, acard_lineage := none, acard_signature := none
    acard_raw := none, wallet_address := none }

/-- The database of the hybrid-merge scenario: agents `a` and `b`, each with
one capability whose description contains `echo`. -/
def dbHybrid : Db :=
  ⟨[agentRowA, { agentRowA with did := "b" }],
    [⟨"a", "cap1", "echo service", [], none⟩, ⟨"b", "cap2", "echo two", [], none⟩]⟩

/-- The vector hit of the hybrid-merge scenario: `(a, cap1)` with cosine
score 0.9 and the payload shape written by `upsertCapability`. -/
def vhitHybrid : Hit :=
  { score := Rat.divInt 9 10
    payload := { agentDid := some "a", capabilityId := some "cap1"
                 description := some "echo service", tags := some []
                 reputation := none, availability_score := none
                 last_seen := none } }

/-- An agent row that never sent a heartbeat (`last_seen` null). -/
def rowNoSeen : AgentRow := { agentRowA with last_seen := none }

/-- A joined agents map containing only the heartbeat-less agent `a`. -/
def amapNoSeen : String → Option AgentRow :=
  fun d => if d = "a" then some rowNoSeen else none

/-- A throwaway discovery result used to instantiate universally quantified
statements at a closed point. -/
def emptyResult : DiscResult :=
  { score := 0, vectorScore := 0, reputationScore := 0, availabilityScore := none
    agentDid := none, capabilityId := none, description := none, tags := none
    reputation := none, agent := none }

/-- A card verifier that rejects everything (the concrete statements below
never reach it or expect rejection). -/
def vfFalse : ACard → String → Bool := fun _ _ => false

/-- A fixed `randomUUID()` stream. -/
def freshU : Nat → String := fun _ => "u"

/-- A card-less register body: `did:x:a` with one capability described
`"echo"`. -/
def bodyFresh : RegisterBody :=
  { did := "did:x:a", name := none, endpoint := some "http://h"
    walletAddress := none
    capabilities := [{ capabilityId := some "c1", capability_id := none
                       description := "echo", tags := none
                       input_schema := none, output_schema := none }]
    acard := none, acard_signature := none }

/-- The same body with an empty-string `acard_signature` and no card:
exactly one of the pair is present in the JSON sense. -/
def bodyEmptySig : RegisterBody := { bodyFresh with acard_signature := some "" }

/-- A concrete agent card for `did:x:a`. -/
def cardX : ACard :=
  { did := "did:x:a", endpoint := "http://h", publicKey := "pk", version := 1
    lineage := none, capabilities := [⟨"c1", "echo", none, none, none⟩]
    metadata := none }

/-- A register body carrying `cardX` and a (bad) non-empty signature. -/
def bodyBadSig : RegisterBody :=
  { bodyFresh with acard := some cardX, acard_signature := some "sig" }

/-!
## Lemmas: arithmetic bridges
-/

theorem qmul_eq (a b : ℚ) : qmul a b = a * b := by
  have ha : (a.den : ℤ) ≠ 0 := Int.natCast_ne_zero.mpr a.den_nz
  have hb : (b.den : ℤ) ≠ 0 := Int.natCast_ne_zero.mpr b.den_nz
  rw [qmul, ← Rat.divInt_mul_divInt _ _ ha hb, Rat.num_divInt_den, Rat.num_divInt_den]

theorem qadd_eq (a b : ℚ) : qadd a b = a + b := by
  have ha : (a.den : ℤ) ≠ 0 := Int.natCast_ne_zero.mpr a.den_nz
  have hb : (b.den : ℤ) ≠ 0 := Int.natCast_ne_zero.mpr b.den_nz
  rw [qadd, ← Rat.divInt_add_divInt _ _ ha hb, Rat.num_divInt_den, Rat.num_divInt_den]

theorem qdiv_eq (a b : ℚ) : qdiv a b = a / b := by
  rcases eq_or_ne b 0 with hb | hb
  · subst hb
    rw [qdiv, div_zero]
    simp [Rat.divInt_zero]
  · have ha : (a.den : ℤ) ≠ 0 := Int.natCast_ne_zero.mpr a.den_nz
    have hbn : b.num ≠ 0 := Rat.num_ne_zero.mpr hb
    rw [qdiv, ← Rat.divInt_mul_divInt _ _ ha hbn, Rat.num_divInt_den,
      div_eq_mul_inv, Rat.inv_def']

theorem jsMin_eq (a b : ℚ) : jsMin a b = min a b := (min_def a b).symm

theorem jsMax_eq (a b : ℚ) : jsMax a b = max a b := (max_def a b).symm

theorem clamp01_nonneg (x : ℚ) : 0 ≤ clamp01 x := by
  rw [clamp01, jsMax_eq]; exact le_max_left 0 _

theorem clamp01_le_one (x : ℚ) : clamp01 x ≤ 1 := by
  rw [clamp01, jsMax_eq, jsMin_eq]
  exact max_le (by norm_num) (min_le_left 1 x)

theorem clamp01_pos_iff (x : ℚ) : 0 < clamp01 x ↔ 0 < x := by
  rw [clamp01, jsMax_eq, jsMin_eq]
  constructor
  · intro h
    rcases lt_max_iff.mp h with h | h
    · exact absurd h (lt_irrefl 0)
    · exact lt_of_lt_of_le h (min_le_right 1 x)
  · intro h
    exact lt_max_of_lt_right (lt_min (by norm_num) h)

theorem ceilDiv1000_eq (a : ℤ) : ceilDiv1000 a = ⌈(a : ℚ) / 1000⌉ := by
  have h1 : (-a).fdiv 1000 = (-a) / 1000 := Int.fdiv_eq_ediv _ (by norm_num)
  have h2 : ((-a : ℤ) / ((1000 : ℕ) : ℤ)) = ⌊((-a : ℤ) : ℚ) / ((1000 : ℕ) : ℚ)⌋ :=
    (Rat.floor_intCast_div_natCast (-a) 1000).symm
  rw [ceilDiv1000, h1, show ((1000 : ℤ)) = ((1000 : ℕ) : ℤ) from rfl, h2,
    show ((-a : ℤ) : ℚ) / ((1000 : ℕ) : ℚ) = -((a : ℚ) / ((1000 : ℕ) : ℚ)) by push_cast; ring,
    Int.floor_neg, neg_neg]
  norm_num

/-!
## Lemmas: endpoint normalization (claim C3)
-/

theorem normalizeEndpoint_strip (y : String) (hy : y ≠ "")
    (hs : y.data.getLast? = some '/') :
    normalizeEndpoint (some y) = some ⟨y.data.dropLast⟩ := by
  simp [normalizeEndpoint, if_neg hy, hs]

theorem normalizeEndpoint_keep (y : String) (hy : y ≠ "")
    (hs : y.data.getLast? ≠ some '/') :
    normalizeEndpoint (some y) = some y := by
  simp only [normalizeEndpoint, if_neg hy]
  rw [if_neg hs]

theorem append_slash_ne_empty (x : String) : x ++ "/" ≠ "" := by
  intro h
  have hd : (x ++ "/").data = x.data ++ ['/'] := String.data_append x "/"
  rw [h] at hd
  exact (List.append_ne_nil_of_right_ne_nil x.data (by simp)) hd.symm

/-- Claim C3 (counterexample): the claimed algebraic laws fail on the code.
`normalize("a/" ++ "/") = "a/"` but `normalize("a/") = "a"`, and
`normalize` is not idempotent at `"/"`: `normalize("/") = ""` while a second
application maps `""` to null. -/
theorem normalizeEndpoint_laws_counterexample :
    ¬ (normalizeEndpoint (some ("a/" ++ "/")) = normalizeEndpoint (some "a/")) ∧
    ¬ (normalizeEndpoint (normalizeEndpoint (some "/")) = normalizeEndpoint (some "/")) := by
  decide

/-- Claim C3 (amended): for every nonempty string `x` that does not end in
`"/"`, `normalize(x ++ "/") = normalize(x)` and
`normalize(normalize(x)) = normalize(x)`; unconditionally, `normalize` maps
null and the empty string to null, strips exactly one trailing slash from a
string ending in `"/"`, and returns every other nonempty string unchanged.
(The two algebraic laws do not hold for strings that end in `"/"`; see the
counterexample.) -/
theorem normalizeEndpoint_laws (x : String) (hx : x ≠ "")
    (hs : x.data.getLast? ≠ some '/') :
    (normalizeEndpoint (some (x ++ "/")) = normalizeEndpoint (some x) ∧
      normalizeEndpoint (normalizeEndpoint (some x)) = normalizeEndpoint (some x)) ∧
    (normalizeEndpoint none = none ∧ normalizeEndpoint (some "") = none ∧
      (∀ y : String, y ≠ "" → y.data.getLast? = some '/' →
        normalizeEndpoint (some y) = some ⟨y.data.dropLast⟩) ∧
      (∀ y : String, y ≠ "" → y.data.getLast? ≠ some '/' →
        normalizeEndpoint (some y) = some y)) := by
  have hkeep : normalizeEndpoint (some x) = some x := normalizeEndpoint_keep x hx hs
  have hdata : (x ++ "/").data = x.data ++ ['/'] := String.data_append x "/"
  have hlast : (x ++ "/").data.getLast? = some '/' := by
    rw [hdata]; exact List.getLast?_concat _
  have hstrip : normalizeEndpoint (some (x ++ "/")) = some ⟨(x ++ "/").data.dropLast⟩ :=
    normalizeEndpoint_strip _ (append_slash_ne_empty x) hlast
  refine ⟨⟨?_, ?_⟩, rfl, rfl, fun y hy hsl => normalizeEndpoint_strip y hy hsl,
    fun y hy hsl => normalizeEndpoint_keep y hy hsl⟩
  · rw [hstrip, hkeep, hdata, List.dropLast_concat]
  · rw [hkeep, hkeep]

/-- Witness for `normalizeEndpoint_laws` at the concrete input `"ab"`. -/
theorem normalizeEndpoint_laws_witness :
    normalizeEndpoint (some ("ab" ++ "/")) = normalizeEndpoint (some "ab") ∧
    normalizeEndpoint (normalizeEndpoint (some "ab")) = normalizeEndpoint (some "ab") :=
  ⟨(normalizeEndpoint_laws "ab" (by decide) (by decide)).1.1,
    (normalizeEndpoint_laws "ab" (by decide) (by decide)).1.2⟩

/-!
## Lemmas: the rate limiter (claim C8)
-/

theorem ceilDiv1000_nonneg (a : ℤ) (ha : 0 ≤ a) : 0 ≤ ceilDiv1000 a := by
  rw [ceilDiv1000_eq]
  exact Int.ceil_nonneg (by positivity)

theorem rateRun_append (maxN : Nat) (W : ℤ) :
    ∀ (l1 l2 : List ℤ) (b : Option Bucket),
      rateRun maxN W b (l1 ++ l2) =
        ((rateRun maxN W (rateRun maxN W b l1).1 l2).1,
          (rateRun maxN W b l1).2 ++ (rateRun maxN W (rateRun maxN W b l1).1 l2).2)
  | [], l2, b => by simp [rateRun]
  | t :: l1, l2, b => by
    simp only [List.cons_append, rateRun, List.append_eq]
    rw [rateRun_append maxN W l1 l2 (rateLimitStep maxN W b t).1]

theorem rateRun_within (maxN : Nat) (W : ℤ) :
    ∀ (ts : List ℤ) (c : Nat) (R : ℤ), (∀ t ∈ ts, t ≤ R) → c + ts.length ≤ maxN →
      rateRun maxN W (some ⟨c, R⟩) ts =
        (some ⟨c + ts.length, R⟩, List.replicate ts.length none)
  | [], c, R, _, _ => by simp [rateRun]
  | t :: ts, c, R, hts, hlen => by
    have ht : ¬ (t > R) := not_lt.mpr (hts t (List.mem_cons_self t ts))
    have hc : ¬ (maxN ≤ c) := by
      simp only [List.length_cons] at hlen; omega
    have hstep : rateLimitStep maxN W (some ⟨c, R⟩) t = (some ⟨c + 1, R⟩, none) := by
      simp [rateLimitStep, ht, hc]
    have ih := rateRun_within maxN W ts (c + 1) R
      (fun x hx => hts x (List.mem_cons_of_mem t hx))
      (by simp only [List.length_cons] at hlen; omega)
    simp only [rateRun, hstep, ih, List.length_cons, List.replicate_succ]
    have hcc : c + (ts.length + 1) = c + 1 + ts.length := by omega
    rw [hcc]

/-- Claim C8: fixed-window rate limiting per IP.  Starting with no window
entry, the request at `t0` and the following `N - 1` requests at times
within the window (`≤ t0 + W`) are all allowed; the `(N+1)`-th request at
`tLast ≤ t0 + W` is rejected with `Retry-After = ⌈(resetAt - tLast)/1000⌉`
where `resetAt = t0 + W`.  Moreover the first request after `resetAt`
starts a fresh window `(count 1, resetAt = t + W)` and is allowed, and a
request is never rejected while the window count is below `N`. -/
theorem rateLimiter_fixed_window (maxN : Nat) (W : ℤ) (t0 tLast : ℤ)
    (ts : List ℤ) (hN : 1 ≤ maxN) (hlen : ts.length = maxN - 1)
    (hts : ∀ t ∈ ts, t ≤ t0 + W) (hlast : tLast ≤ t0 + W) :
    (rateRun maxN W none (t0 :: ts ++ [tLast]) =
      (some ⟨maxN, t0 + W⟩,
        List.replicate maxN none ++ [some ⌈((t0 + W - tLast : ℤ) : ℚ) / 1000⌉])) ∧
    (∀ (c : Nat) (r t : ℤ), r < t →
      rateLimitStep maxN W (some ⟨c, r⟩) t = (some ⟨1, t + W⟩, none)) ∧
    (∀ (c : Nat) (r t : ℤ), c < maxN →
      (rateLimitStep maxN W (some ⟨c, r⟩) t).2 = none) := by
  refine ⟨?_, ?_, ?_⟩
  · have hfirst : rateLimitStep maxN W none t0 = (some ⟨1, t0 + W⟩, none) := by
      simp [rateLimitStep]
    have hmid := rateRun_within maxN W ts 1 (t0 + W) hts (by omega)
    have hnotafter : ¬ (tLast > t0 + W) := not_lt.mpr hlast
    have hcnt : 1 + ts.length = maxN := by omega
    have hfull : maxN ≤ (1 + ts.length) := by omega
    have hretry : ¬ (ceilDiv1000 (t0 + W - tLast) < 0) :=
      not_lt.mpr (ceilDiv1000_nonneg _ (by omega))
    have hlaststep :
        rateLimitStep maxN W (some ⟨1 + ts.length, t0 + W⟩) tLast =
          (some ⟨1 + ts.length, t0 + W⟩, some (ceilDiv1000 (t0 + W - tLast))) := by
      simp [rateLimitStep, hnotafter, hfull, hretry]
    have hsingle : rateRun maxN W (some ⟨1 + ts.length, t0 + W⟩) [tLast] =
        (some ⟨1 + ts.length, t0 + W⟩, [some (ceilDiv1000 (t0 + W - tLast))]) := by
      simp [rateRun, hlaststep]
    have happ := rateRun_append maxN W ts [tLast] (some ⟨1, t0 + W⟩)
    rw [hmid] at happ
    simp only at happ
    rw [hsingle] at happ
    simp only at happ
    simp only [rateRun, hfirst, List.append_eq]
    rw [happ]
    rw [ceilDiv1000_eq, ← hcnt]
    rw [show (1 + ts.length) = ts.length + 1 from by omega]
    simp [List.replicate_succ]
  · intro c r t hrt
    simp [rateLimitStep, hrt]
  · intro c r t hc
    by_cases hrt : t > r
    · simp [rateLimitStep, hrt]
    · simp [rateLimitStep, hrt, not_le.mpr hc]

/-- Witness for `rateLimiter_fixed_window`: cap 2, window 60000 ms,
requests at 0, 10 and 20 — two allowed, the third rejected with
`Retry-After = ⌈59980/1000⌉`. -/
theorem rateLimiter_fixed_window_witness :
    rateRun 2 60000 none (0 :: [10] ++ [20]) =
      (some ⟨2, 0 + 60000⟩,
        List.replicate 2 none ++ [some ⌈((0 + 60000 - 20 : ℤ) : ℚ) / 1000⌉]) :=
  (rateLimiter_fixed_window 2 60000 0 20 [10] (by decide) (by decide)
    (by decide) (by decide)).1

/-!
## Lemmas: the agents upsert (claim C9)
-/

/-- Claim C9: frame condition of `upsertAgent` on an existing `did`.  The
stored `wallet_address` survives when the new payload's wallet is null and
is replaced when it is non-null, while `name`, `endpoint`, `public_key` and
the four card columns take the new payload's values unconditionally; and on
a conflicting `did` the upsert rewrites exactly the matching rows this
way. -/
theorem upsertAgent_frame (old : AgentRow) (u : AgentUpsert) :
    (u.wallet_address = none →
      (applyUpsert old u).wallet_address = old.wallet_address) ∧
    (∀ w, u.wallet_address = some w →
      (applyUpsert old u).wallet_address = some w) ∧
    (applyUpsert old u).name = u.name ∧
    (applyUpsert old u).endpoint = u.endpoint ∧
    (applyUpsert old u).public_key = u.public_key ∧
    (applyUpsert old u).acard_version = u.acard_version ∧
    (applyUpsert old u).acard_lineage = u.acard_lineage ∧
    (applyUpsert old u).acard_signature = u.acard_signature ∧
    (applyUpsert old u).acard_raw = u.acard_raw ∧
    (∀ agents : List AgentRow, (agents.any (fun r => r.did == u.did)) = true →
      upsertAgent agents u =
        agents.map (fun r => if r.did == u.did then applyUpsert r u else r)) := by
  refine ⟨?_, ?_, rfl, rfl, rfl, rfl, rfl, rfl, rfl, ?_⟩
  · intro h; simp [applyUpsert, h]
  · intro w h; simp [applyUpsert, h]
  · intro agents h; simp [upsertAgent, h]

/-- Witness for `upsertAgent_frame`: a stored wallet survives a null-wallet
re-register, and every other column is overwritten. -/
theorem upsertAgent_frame_witness :
    (applyUpsert
        { did := "d", name := some "old", endpoint := some "e1"
          reputation := some 1, availability_score := some 1, last_seen := some 5
          public_key := some "pk1", acard_version := some 1, acard_lineage := none
          acard_signature := some "sg", acard_raw := none
          wallet_address := some "0xabc" }
        { did := "d", name := some "new", endpoint := some "e2"
          public_key := none, wallet_address := none, acard_version := none
          acard_lineage := none, acard_signature := none
          acard_raw := none }).wallet_address = some "0xabc" :=
  (upsertAgent_frame _ _).1 rfl

/-!
## Lemmas: the hash-based fallback embedding (claims C10 and C7)
-/

theorem normSq_foldl (v : List ℚ) : ∀ a : ℚ,
    v.foldl (fun s x => qadd s (qmul x x)) a = a + (v.map (fun x => x * x)).sum := by
  induction v with
  | nil => intro a; simp
  | cons x xs ih =>
    intro a
    rw [List.foldl_cons, ih (qadd a (qmul x x)), qadd_eq, qmul_eq,
      List.map_cons, List.sum_cons]
    ring

theorem normSq_eq_sum (v : List ℚ) : normSq v = (v.map (fun x => x * x)).sum := by
  rw [normSq, normSq_foldl]; simp

theorem normSq_append (v w : List ℚ) : normSq (v ++ w) = normSq v + normSq w := by
  simp [normSq_eq_sum]

theorem normSq_replicate_zero (n : Nat) : normSq (List.replicate n (0 : ℚ)) = 0 := by
  rw [normSq_eq_sum]
  simp

theorem sum_pos_of_mem_nonneg :
    ∀ (l : List ℚ), (∀ y ∈ l, 0 ≤ y) → ∀ x ∈ l, 0 < x → 0 < l.sum
  | [], _, x, hx, _ => absurd hx (List.not_mem_nil x)
  | y :: ys, hnn, x, hx, hpos => by
    rcases List.mem_cons.mp hx with h | h
    · subst h
      have : 0 ≤ ys.sum := List.sum_nonneg (fun z hz => hnn z (List.mem_cons_of_mem _ hz))
      simp only [List.sum_cons]
      linarith
    · have : 0 < ys.sum :=
        sum_pos_of_mem_nonneg ys (fun z hz => hnn z (List.mem_cons_of_mem _ hz)) x h hpos
      have hy : 0 ≤ y := hnn y (List.mem_cons_self _ _)
      simp only [List.sum_cons]
      linarith

theorem byteComponent_ne_zero (n : ℕ) : ((n : ℚ) / 127.5 - 1) ≠ 0 := by
  intro h
  have h2 : (n : ℚ) = 127.5 := by
    field_simp at h
    linarith
  have h3 : (2 * n : ℚ) = 255 := by
    rw [show (127.5 : ℚ) = 255 / 2 by norm_num] at h2
    linarith
  have h4 : (2 * n : ℕ) = 255 := by exact_mod_cast h3
  omega

/-- Claim C10: the pre-normalization hash-based fallback vector has strictly
positive squared Euclidean norm for every possible SHA-256 digest — each
component `(byte / 127.5) - 1` is nonzero because a byte is an integer and
can never equal `127.5` — so the zero-norm guard branch
(`norm || 1`) of `hashBasedEmbedding` is unreachable and the returned
vector is always divided by the true norm. -/
theorem preVec_normSq_pos (hash : Fin 32 → Fin 256) :
    0 < normSq (preVec hash) ∧ normSq (preVec hash) ≠ 0 := by
  have hpos : 0 < normSq (preVec hash) := by
    rw [normSq_eq_sum]
    set f : ℕ → ℚ :=
      fun i => ((hash ⟨i % 32, Nat.mod_lt _ (by decide)⟩ : ℕ) : ℚ) / 127.5 - 1 with hf
    have hmem0 : f 0 * f 0 ∈ ((preVec hash).map (fun x => x * x)) := by
      refine List.mem_map_of_mem _ ?_
      refine List.mem_map_of_mem _ ?_
      exact List.mem_range.mpr (by norm_num [VECTOR_SIZE])
    refine sum_pos_of_mem_nonneg _ ?_ (f 0 * f 0) hmem0 ?_
    · intro y hy
      rcases List.mem_map.mp hy with ⟨x, _, rfl⟩
      exact mul_self_nonneg x
    · exact mul_self_pos.mpr (byteComponent_ne_zero _)
  exact ⟨hpos, ne_of_gt hpos⟩

theorem fitToSize_length (out : List ℚ) : (fitToSize out).length = VECTOR_SIZE := by
  rw [fitToSize]
  split
  · rw [List.length_take]; omega
  · rw [List.length_append, List.length_replicate]; omega

set_option maxRecDepth 4000 in
/-- Claim C7 (counterexample): the claim fails on the code.  With the model
path active and a unit-norm model output of native dimension 385
(`modelOut385`), `embed` truncates to the first 384 entries WITHOUT
re-normalizing: the result of `embed` on input `"query"` is the all-zero
vector, whose squared norm 0 is not within the claimed tolerance of 1. -/
theorem embed_renormalize_counterexample :
    embed (.model modelOut385) "query" = List.replicate VECTOR_SIZE 0 ∧
    normSq (embed (.model modelOut385) "query") = 0 ∧
    ¬ ((1 - 1/1000000 : ℚ) * (1 - 1/1000000 : ℚ) <
        normSq (embed (.model modelOut385) "query")) := by
  have hclean : trimStr (lowerStr "query") = "query" := by decide
  have hne : ¬ (trimStr (lowerStr "query") = "") := by decide
  have hembed : embed (.model modelOut385) "query" = List.replicate VECTOR_SIZE 0 := by
    simp only [embed]
    rw [if_neg hne, hclean]
    show fitToSize (List.replicate 384 0 ++ [1]) = List.replicate VECTOR_SIZE 0
    have hle : VECTOR_SIZE ≤ (List.replicate 384 (0:ℚ) ++ [(1:ℚ)]).length := by
      simp only [List.length_append, List.length_replicate, List.length_singleton,
        VECTOR_SIZE]
      omega
    rw [fitToSize, if_pos hle,
      show VECTOR_SIZE = (List.replicate 384 (0:ℚ)).length from by
        simp only [List.length_replicate, VECTOR_SIZE],
      List.take_left]
    rfl
  refine ⟨hembed, ?_, ?_⟩
  · rw [hembed, normSq_replicate_zero]
  · rw [hembed, normSq_replicate_zero]
    norm_num

/-- Claim C7 (amended): `embed` always returns a vector of length 384; empty
or whitespace-only (trimmed) input returns the all-zero vector of length
384; a model output of native dimension below 384 is zero-padded, which
preserves the squared norm (so the model's unit norm survives padding); a
model output of native dimension at least 384 is truncated to its first 384
entries with NO re-normalization (so the unit-norm guarantee can fail
there, see the counterexample); and the fallback path divides by the norm
of a vector whose squared norm is provably positive. -/
theorem embed_contract (st : EmbedderState) (text : String)
    (out : List ℚ) (hash : Fin 32 → Fin 256) :
    (embed st text).length = VECTOR_SIZE ∧
    (trimStr (lowerStr text) = "" → embed st text = List.replicate VECTOR_SIZE 0) ∧
    (out.length ≤ VECTOR_SIZE → normSq (fitToSize out) = normSq out) ∧
    (VECTOR_SIZE ≤ out.length → fitToSize out = out.take VECTOR_SIZE) ∧
    0 < normSq (preVec hash) := by
  refine ⟨?_, ?_, ?_, ?_, (preVec_normSq_pos hash).1⟩
  · simp only [embed]
    split
    · simp
    · split
      · exact fitToSize_length _
      · simp [preVec, VECTOR_SIZE]
  · intro h
    simp only [embed]
    simp [h]
  · intro h
    rw [fitToSize]
    split
    · have : out.length = VECTOR_SIZE := by omega
      rw [List.take_of_length_le (by omega)]
    · rw [normSq_append, normSq_replicate_zero, add_zero]
  · intro h
    rw [fitToSize, if_pos h]

/-- Witness for `embed_contract`: whitespace-only input yields the zero
vector, and padding a one-entry model output preserves its squared norm. -/
theorem embed_contract_witness :
    embed (.model (fun _ => [1])) "  " = List.replicate VECTOR_SIZE 0 ∧
    normSq (fitToSize [(1 : ℚ)]) = normSq [(1 : ℚ)] :=
  ⟨(embed_contract (.model (fun _ => [1])) "  " [] (fun _ => 0)).2.1 (by decide),
    (embed_contract (.model (fun _ => [1])) "  " [(1 : ℚ)] (fun _ => 0)).2.2.1
      (by norm_num [VECTOR_SIZE])⟩

/-!
## Lemmas: the discovery pipeline (claims C4, C5, C6)
-/

theorem insertDesc_perm (x : DiscResult) :
    ∀ l : List DiscResult, (insertDesc x l).Perm (x :: l)
  | [] => List.Perm.refl _
  | y :: ys => by
    rw [insertDesc]
    split
    · exact List.Perm.refl _
    · exact ((insertDesc_perm x ys).cons y).trans (List.Perm.swap x y ys)

theorem sortDesc_perm : ∀ l : List DiscResult, (sortDesc l).Perm l
  | [] => List.Perm.refl _
  | x :: xs => (insertDesc_perm x (sortDesc xs)).trans ((sortDesc_perm xs).cons x)

theorem insertDesc_sorted (x : DiscResult) :
    ∀ l : List DiscResult, l.Pairwise (fun a b => b.score ≤ a.score) →
      (insertDesc x l).Pairwise (fun a b => b.score ≤ a.score)
  | [], _ => List.pairwise_singleton _ _
  | y :: ys, h => by
    rw [insertDesc]
    have hy := List.pairwise_cons.mp h
    split
    · rename_i hxy
      refine List.pairwise_cons.mpr ⟨?_, h⟩
      intro z hz
      rcases List.mem_cons.mp hz with rfl | hz
      · exact hxy
      · exact le_trans (hy.1 z hz) hxy
    · rename_i hxy
      refine List.pairwise_cons.mpr ⟨?_, insertDesc_sorted x ys hy.2⟩
      intro z hz
      rcases List.mem_cons.mp ((insertDesc_perm x ys).mem_iff.mp hz) with rfl | hz
      · exact le_of_not_le hxy
      · exact hy.1 z hz

theorem sortDesc_sorted :
    ∀ l : List DiscResult, (sortDesc l).Pairwise (fun a b => b.score ≤ a.score)
  | [] => List.Pairwise.nil
  | x :: xs => insertDesc_sorted x (sortDesc xs) (sortDesc_sorted xs)

theorem dedupeHits_mem (cfg : Config) (amap : String → Option AgentRow) (now : ℤ) :
    ∀ (seen : List String) (hits : List Hit) (r : DiscResult),
      r ∈ dedupeHits cfg amap now seen hits →
        ∃ h ∈ hits, r = processHit cfg amap now h
  | _, [], r, hr => absurd hr (List.not_mem_nil r)
  | seen, h :: rest, r, hr => by
    rw [dedupeHits] at hr
    split at hr
    · obtain ⟨h', hh', rfl⟩ := dedupeHits_mem cfg amap now seen rest r hr
      exact ⟨h', List.mem_cons_of_mem _ hh', rfl⟩
    · rcases List.mem_cons.mp hr with rfl | hr
      · exact ⟨h, List.mem_cons_self _ _, rfl⟩
      · obtain ⟨h', hh', rfl⟩ := dedupeHits_mem cfg amap now _ rest r hr
        exact ⟨h', List.mem_cons_of_mem _ hh', rfl⟩

theorem dedupeHits_keys (cfg : Config) (amap : String → Option AgentRow) (now : ℤ) :
    ∀ (seen : List String) (hits : List Hit),
      (dedupeHits cfg amap now seen hits).Pairwise
          (fun a b => dedupeKey a ≠ dedupeKey b) ∧
        ∀ r ∈ dedupeHits cfg amap now seen hits, dedupeKey r ∉ seen
  | _, [] => ⟨List.Pairwise.nil, fun r hr => absurd hr (List.not_mem_nil r)⟩
  | seen, h :: rest => by
    rw [dedupeHits]
    split
    · rename_i hcont
      obtain ⟨hpw, hnot⟩ := dedupeHits_keys cfg amap now seen rest
      exact ⟨hpw, hnot⟩
    · rename_i hcont
      obtain ⟨hpw, hnot⟩ := dedupeHits_keys cfg amap now
        (dedupeKey (processHit cfg amap now h) :: seen) rest
      have hfresh : dedupeKey (processHit cfg amap now h) ∉ seen := by
        intro hmem
        exact hcont (List.contains_iff_exists_mem_beq.mpr
          ⟨_, hmem, by simp⟩)
      refine ⟨List.pairwise_cons.mpr ⟨?_, hpw⟩, ?_⟩
      · intro r hr heq
        exact hnot r hr (heq ▸ List.mem_cons_self _ _)
      · intro r hr
        rcases List.mem_cons.mp hr with rfl | hr
        · exact hfresh
        · exact fun hmem => hnot r hr (List.mem_cons_of_mem _ hmem)

theorem dedupeHits_exists (cfg : Config) (amap : String → Option AgentRow) (now : ℤ) :
    ∀ (seen : List String) (hits : List Hit) (k : String), k ∉ seen →
      (∃ h ∈ hits, dedupeKey (processHit cfg amap now h) = k) →
      ∃ h ∈ hits, dedupeKey (processHit cfg amap now h) = k ∧
        processHit cfg amap now h ∈ dedupeHits cfg amap now seen hits
  | seen, [], k, _, hex => absurd hex (by simp)
  | seen, h :: rest, k, hk, hex => by
    rw [dedupeHits]
    by_cases hkey : dedupeKey (processHit cfg amap now h) = k
    · rw [if_neg ?_]
      · exact ⟨h, List.mem_cons_self _ _, hkey, List.mem_cons_self _ _⟩
      · intro hcont
        rcases List.contains_iff_exists_mem_beq.mp hcont with ⟨x, hx, hbeq⟩
        rw [show x = dedupeKey (processHit cfg amap now h) from (eq_of_beq hbeq).symm] at hx
        exact hk (hkey ▸ hx)
    · have hex' : ∃ h' ∈ rest, dedupeKey (processHit cfg amap now h') = k := by
        rcases hex with ⟨h', hh', hkey'⟩
        rcases List.mem_cons.mp hh' with rfl | hh'
        · exact absurd hkey' hkey
        · exact ⟨h', hh', hkey'⟩
      split
      · obtain ⟨h', hh', hkey', hmem⟩ := dedupeHits_exists cfg amap now seen rest k hk hex'
        exact ⟨h', List.mem_cons_of_mem _ hh', hkey', hmem⟩
      · have hk' : k ∉ dedupeKey (processHit cfg amap now h) :: seen := by
          intro hmem
          rcases List.mem_cons.mp hmem with heq | hmem
          · exact hkey heq.symm
          · exact hk hmem
        obtain ⟨h', hh', hkey', hmem⟩ := dedupeHits_exists cfg amap now _ rest k hk' hex'
        exact ⟨h', List.mem_cons_of_mem _ hh', hkey', List.mem_cons_of_mem _ hmem⟩

theorem discover_mem_split (cfg : Config) (db : Db) (vhits : List Hit) (now : ℤ)
    (q : String) (mr : ℚ) (r : DiscResult)
    (hr : r ∈ discover cfg db vhits now q mr) :
    (∃ h ∈ vhits ++ keywordHits db q,
      r = processHit cfg (agentsMapOf db (vhits ++ keywordHits db q)) now h) ∧
    keepResult mr r = true := by
  rw [discover] at hr
  have hr1 := (sortDesc_perm _).mem_iff.mp hr
  have hr2 := List.mem_filter.mp hr1
  exact ⟨dedupeHits_mem _ _ _ _ _ _ hr2.1, hr2.2⟩

/-- Claim C4 (counterexample): the claim fails on the code.  An agent that is
present in the joined map but has no `last_seen` (never sent a heartbeat)
does NOT contribute availability = null: its null `last_seen` is read as
timestamp 0, the staleness test fires, and it contributes availability 0
(here at `now = 1000000` with the default TTL). -/
theorem availability_no_last_seen_counterexample :
    availState defaultConfig amapNoSeen (some "a") 1000000 = some 0 ∧
    availState defaultConfig amapNoSeen (some "a") 1000000 ≠ none := by
  constructor
  · decide
  · decide

/-- Claim C4 (amended): with `now` the wall-clock time, a joined agent with a
heartbeat is stale iff `now - last_seen > 2 * HEARTBEAT_TTL`; a stale
agent's availability is forced to 0, a non-stale one contributes its
clamped `availability_score`; an agent ABSENT from the joined map
contributes availability = null, while a joined agent with a null
`last_seen` is treated as `last_seen = 0` and hence contributes 0 whenever
`now > 2 * HEARTBEAT_TTL`; and a result is dropped from the output iff its
effective availability (`?? 0`) is ≤ 0 or its reputation score is below
`minReputation`, so every returned result has positive availability and
sufficient reputation. -/
theorem availability_gate (cfg : Config) (amap : String → Option AgentRow)
    (did : String) (now ls : ℤ) (row : AgentRow) (mr : ℚ) (r : DiscResult)
    (db : Db) (vhits : List Hit) (q : String) :
    (amap did = some row → row.last_seen = some ls →
      (now - ls > cfg.heartbeatTTL * 2 →
        availState cfg amap (some did) now = some 0) ∧
      (¬ (now - ls > cfg.heartbeatTTL * 2) →
        availState cfg amap (some did) now =
          some (clamp01 (row.availability_score.getD 0)))) ∧
    (amap did = some row → row.last_seen = none →
      now - 0 > cfg.heartbeatTTL * 2 →
      availState cfg amap (some did) now = some 0) ∧
    (amap did = none → availState cfg amap (some did) now = none) ∧
    (keepResult mr r = false ↔
      (r.availabilityScore.getD 0 ≤ 0 ∨ r.reputationScore < mr)) ∧
    (∀ r' ∈ discover cfg db vhits now q mr,
      0 < r'.availabilityScore.getD 0 ∧ mr ≤ r'.reputationScore) := by
  refine ⟨?_, ?_, ?_, ?_, ?_⟩
  · intro hrow hls
    constructor
    · intro hstale
      simp [availState, hrow, hls, hstale]
    · intro hstale
      simp [availState, hrow, hls, hstale]
  · intro hrow hls hstale
    simp only [availState, Option.getD_some, hrow, hls]
    rw [if_pos hstale]
  · intro hrow
    simp [availState, hrow]
  · rw [keepResult]
    constructor
    · intro h
      rcases Bool.and_eq_false_iff.mp h with h | h
      · exact Or.inl (not_lt.mp (by simpa using h))
      · exact Or.inr (not_le.mp (by simpa using h))
    · intro h
      rcases h with h | h
      · exact Bool.and_eq_false_iff.mpr (Or.inl (by simpa using not_lt.mpr h))
      · exact Bool.and_eq_false_iff.mpr (Or.inr (by simpa using not_le.mpr h))
  · intro r' hr'
    have hk := (discover_mem_split cfg db vhits now q mr r' hr').2
    rw [keepResult, Bool.and_eq_true] at hk
    exact ⟨by simpa using hk.1, by simpa using hk.2⟩

/-- Witness for `availability_gate`: the heartbeat-less joined agent `a`
contributes availability 0 at `now = 1000000`, and the filter
characterization instantiated at a throwaway result. -/
theorem availability_gate_witness :
    availState defaultConfig amapNoSeen (some "a") 1000000 = some 0 ∧
    (keepResult 0 emptyResult = false ↔
      (emptyResult.availabilityScore.getD 0 ≤ 0 ∨ emptyResult.reputationScore < 0)) :=
  ⟨(availability_gate defaultConfig amapNoSeen "a" 1000000 0 rowNoSeen 0 emptyResult
      ⟨[], []⟩ [] "q").2.1 (by decide) (by decide) (by decide),
    (availability_gate defaultConfig amapNoSeen "a" 1000000 0 rowNoSeen 0 emptyResult
      ⟨[], []⟩ [] "q").2.2.2.1⟩

/-- Claim C5: hybrid merge and deduplication.  The discovery output never
contains two results with the same `(agentDid, capabilityId)` pair (the
dedupe key preserves the first occurrence, and vector hits precede lexical
hits in the merged list); in the documented scenario — vector hit
`(a, cap1)` with cosine 0.9, lexical hits `(a, cap1)` and `(b, cap2)` at
the stand-in 0.45 — the output has exactly two entries, `(a, cap1)` first
carrying `vectorScore = 0.9` (not 0.45), then `(b, cap2)` with 0.45. -/
theorem discovery_merge_dedupe (cfg : Config) (db : Db) (vhits : List Hit)
    (now : ℤ) (q : String) (mr : ℚ) :
    (discover cfg db vhits now q mr).Pairwise
        (fun a b => (a.agentDid, a.capabilityId) ≠ (b.agentDid, b.capabilityId)) ∧
    ((discover defaultConfig dbHybrid [vhitHybrid] 100 "echo" 0).map
        (fun r => (r.agentDid, r.capabilityId, r.vectorScore)) =
      [(some "a", some "cap1", Rat.divInt 9 10),
        (some "b", some "cap2", Rat.divInt 9 20)]) ∧
    Rat.divInt 9 10 = (0.9 : ℚ) ∧ Rat.divInt 9 20 = (0.45 : ℚ) := by
  refine ⟨?_, by decide, by norm_num [Rat.divInt_eq_div], by norm_num [Rat.divInt_eq_div]⟩
  have hkeys := (dedupeHits_keys cfg
    (agentsMapOf db (vhits ++ keywordHits db q)) now []
    (vhits ++ keywordHits db q)).1
  have hpairs : (dedupeHits cfg (agentsMapOf db (vhits ++ keywordHits db q)) now []
      (vhits ++ keywordHits db q)).Pairwise
      (fun a b => (a.agentDid, a.capabilityId) ≠ (b.agentDid, b.capabilityId)) := by
    refine hkeys.imp ?_
    intro a b hne heq
    apply hne
    rw [dedupeKey, dedupeKey]
    rw [show a.agentDid = b.agentDid from congrArg Prod.fst heq,
      show a.capabilityId = b.capabilityId from congrArg Prod.snd heq]
  have hfilter : (((dedupeHits cfg (agentsMapOf db (vhits ++ keywordHits db q)) now []
      (vhits ++ keywordHits db q)).filter (keepResult mr))).Pairwise
      (fun a b => (a.agentDid, a.capabilityId) ≠ (b.agentDid, b.capabilityId)) :=
    hpairs.sublist (List.filter_sublist _)
  rw [discover]
  exact ((sortDesc_perm _).pairwise_iff (fun {a b} h heq => h heq.symm)).mpr hfilter

/-- Claim C6: every discovery result's combined score equals
`W_sim * sim + W_rep * rep + W_avail * avail` where `rep` is the reputation
clamped to `[0, 1]` and `avail` is taken as 0 when null; the result list is
sorted non-increasing in this score; and the default weights are 0.7, 0.25
and 0.2. -/
theorem discovery_ranking (cfg : Config) (db : Db) (vhits : List Hit) (now : ℤ)
    (q : String) (mr : ℚ) :
    (∀ r ∈ discover cfg db vhits now q mr,
      r.score = cfg.wSim * r.vectorScore + cfg.wRep * r.reputationScore
        + cfg.wAvail * (r.availabilityScore.getD 0) ∧
      0 ≤ r.reputationScore ∧ r.reputationScore ≤ 1) ∧
    (discover cfg db vhits now q mr).Pairwise (fun a b => b.score ≤ a.score) ∧
    defaultConfig.wSim = (0.7 : ℚ) ∧ defaultConfig.wRep = (0.25 : ℚ) ∧
      defaultConfig.wAvail = (0.2 : ℚ) := by
  refine ⟨?_, ?_, by norm_num [defaultConfig, Rat.divInt_eq_div],
    by norm_num [defaultConfig, Rat.divInt_eq_div],
    by norm_num [defaultConfig, Rat.divInt_eq_div]⟩
  · intro r hr
    obtain ⟨⟨h, _, rfl⟩, _⟩ := discover_mem_split cfg db vhits now q mr r hr
    refine ⟨?_, clamp01_nonneg _, clamp01_le_one _⟩
    simp only [processHit, qadd_eq, qmul_eq]
  · rw [discover]
    exact sortDesc_sorted _

/-- Witness for `discovery_ranking`: in the hybrid scenario every returned
score literally equals the weighted blend of its own components. -/
theorem discovery_ranking_witness :
    (discover defaultConfig dbHybrid [vhitHybrid] 100 "echo" 0).map
        (fun r => r.score) =
      (discover defaultConfig dbHybrid [vhitHybrid] 100 "echo" 0).map
        (fun r => defaultConfig.wSim * r.vectorScore
          + defaultConfig.wRep * r.reputationScore
          + defaultConfig.wAvail * (r.availabilityScore.getD 0)) :=
  List.map_congr_left (fun r hr =>
    ((discovery_ranking defaultConfig dbHybrid [vhitHybrid] 100 "echo" 0).1 r hr).1)

/-!
## Lemmas: card validation in the register handler (claim C2)
-/

/-- Claim C2 (counterexample): the claim fails on the code.  A register body
with `acard_signature = ""` present and no `acard` has exactly one of the
pair present, yet the handler treats the empty string as absent
(JavaScript truthiness), proceeds card-less, replies 200 and writes to the
store instead of replying 400 with no write. -/
theorem register_card_exactly_one_counterexample :
    (register vfFalse freshU ⟨[], []⟩ [] bodyEmptySig).1 = 200 ∧
    (register vfFalse freshU ⟨[], []⟩ [] bodyEmptySig).2.1 ≠ (⟨[], []⟩ : Db) := by
  constructor
  · decide
  · decide

/-- Claim C2 (amended): card error handling with atomicity, under the
truthiness the code actually applies.  (A) a present card with an absent or
empty signature yields 400; (B) a non-empty signature without a card yields
400 (an empty-string signature without a card is treated as absent and the
request proceeds card-less); (C) both present (non-empty signature) with
`card.did ≠ body.did` yields 400; (D) both present with a truthy persisted
endpoint, matching card endpoint and matching did, but a signature that
does not verify, yields 401; and in every such error case neither the
metadata store nor the vector index changes. -/
theorem register_card_errors (verify : ACard → String → Bool)
    (fresh : Nat → String) (db : Db) (vdb : List VPoint) (b : RegisterBody) :
    (∀ card, b.acard = some card →
      (b.acard_signature = none ∨ b.acard_signature = some "") →
      register verify fresh db vdb b = (400, db, vdb)) ∧
    (∀ s, b.acard = none → b.acard_signature = some s → s ≠ "" →
      register verify fresh db vdb b = (400, db, vdb)) ∧
    (∀ card s, b.acard = some card → b.acard_signature = some s → s ≠ "" →
      card.did ≠ b.did →
      register verify fresh db vdb b = (400, db, vdb)) ∧
    (∀ card s, b.acard = some card → b.acard_signature = some s → s ≠ "" →
      card.did = b.did →
      ((jsTruthyS (normalizeEndpoint b.endpoint) = true ∧
          normalizeEndpoint (some card.endpoint) = normalizeEndpoint b.endpoint) ∨
        (jsTruthyS (normalizeEndpoint b.endpoint) = false ∧
          jsTruthyS (normalizeEndpoint (some card.endpoint)) = true)) →
      verify card s = false →
      register verify fresh db vdb b = (401, db, vdb)) := by
  refine ⟨?_, ?_, ?_, ?_⟩
  · intro card hcard hsig
    rcases hsig with hsig | hsig
    · simp [register, hcard, hsig]
    · simp [register, hcard, hsig]
  · intro s hcard hsig hne
    have hts : jsTruthyS (some s) = true := by
      simp [jsTruthyS, hne]
    simp [register, hcard, hsig, hts]
  · intro card s hcard hsig hne hdid
    rcases Bool.eq_false_or_eq_true (jsTruthyS (if jsTruthyS (normalizeEndpoint b.endpoint)
        then normalizeEndpoint b.endpoint
        else normalizeEndpoint (some card.endpoint))) with hep | hep
    · simp [register, hcard, hsig, hne, hep, hdid]
    · simp [register, hcard, hsig, hne, hep, hdid]
  · intro card s hcard hsig hne hdid hgate hverify
    rcases hgate with ⟨hb, hm⟩ | ⟨hb, hc⟩
    · simp [register, hcard, hsig, hne, hb, hm, hdid, hverify]
    · simp [register, hcard, hsig, hne, hb, hc, hdid, hverify]

/-- Witness for `register_card_errors`: a mismatched-did card register
replies 400 with nothing written, and a well-formed card with a bad
signature replies 401 with nothing written. -/
theorem register_card_errors_witness :
    register vfFalse freshU ⟨[], []⟩ []
        { bodyBadSig with did := "did:x:b" } = (400, ⟨[], []⟩, []) ∧
    register vfFalse freshU ⟨[], []⟩ [] bodyBadSig = (401, ⟨[], []⟩, []) :=
  ⟨(register_card_errors vfFalse freshU ⟨[], []⟩ []
        { bodyBadSig with did := "did:x:b" }).2.2.1
      cardX "sig" rfl rfl (by decide) (by decide),
    (register_card_errors vfFalse freshU ⟨[], []⟩ [] bodyBadSig).2.2.2
      cardX "sig" rfl rfl (by decide) rfl (Or.inl ⟨by decide, rfl⟩) rfl⟩

/-!
## Lemmas: register → discover round trip (claim C1)
-/

theorem like_concat_self : ∀ l : List Char, likeMatch (l ++ ['%']) l = true
  | [] => by decide
  | c :: l => by
    rw [List.cons_append]
    by_cases hc : c = '%'
    · subst hc
      show (('%' :: l).tails.any (fun t => likeMatch (l ++ ['%']) t)) = true
      apply List.any_eq_true.mpr
      exact ⟨l, (List.mem_tails _ _).mpr (List.suffix_cons '%' l),
        like_concat_self l⟩
    · have hstep : likeMatch (c :: (l ++ ['%'])) (c :: l)
          = ((c == '_' || c == c) && likeMatch (l ++ ['%']) l) := by
        conv_lhs => rw [likeMatch.eq_def]
        simp only [if_neg hc]
      rw [hstep]
      simp [like_concat_self l]

theorem ilike_self (s : String) : ilikeContains s s = true := by
  rw [ilikeContains]
  show ((lowerStr s).data.tails.any
    (fun t => likeMatch ((lowerStr s).data ++ ['%']) t)) = true
  apply List.any_eq_true.mpr
  exact ⟨(lowerStr s).data, (List.mem_tails _ _).mpr (List.suffix_refl _),
    like_concat_self _⟩

theorem pipe_split :
    ∀ (a c X cap : List Char), '|' ∉ X → '|' ∉ cap →
      a ++ '|' :: c = X ++ '|' :: cap → a = X ∧ c = cap
  | [], c, [], cap, _, _, h => by simpa using h
  | [], c, x :: X, cap, hX, hcap, h => by
    simp only [List.nil_append, List.cons_append, List.cons.injEq] at h
    exact absurd (h.1 ▸ List.mem_cons_self x X) hX
  | a :: as, c, [], cap, hX, hcap, h => by
    simp only [List.cons_append, List.nil_append, List.cons.injEq] at h
    exact absurd (h.2 ▸ List.mem_append_right as (List.mem_cons_self '|' c)) hcap
  | a :: as, c, x :: X, cap, hX, hcap, h => by
    simp only [List.cons_append, List.cons.injEq] at h
    obtain ⟨rfl, h2⟩ := h
    obtain ⟨rfl, rfl⟩ :=
      pipe_split as c X cap (fun hm => hX (List.mem_cons_of_mem _ hm)) hcap h2
    exact ⟨rfl, rfl⟩

theorem key_split (o oc : Option String) (X cap : String)
    (hX : '|' ∉ X.data) (hcap : '|' ∉ cap.data) (hXne : X ≠ "")
    (h : (o.getD "") ++ "|" ++ (oc.getD "") = X ++ "|" ++ cap) : o = some X := by
  have hd : (o.getD "").data ++ '|' :: (oc.getD "").data = X.data ++ '|' :: cap.data := by
    have h2 := congrArg String.data h
    simpa [String.data_append] using h2
  have h3 := (pipe_split _ _ _ _ hX hcap hd).1
  cases o with
  | none =>
    exfalso
    apply hXne
    apply String.ext
    simpa using h3.symm
  | some v =>
    rw [Option.getD_some] at h3
    rw [String.ext h3]

theorem find?_append_of_none {α : Type} (p : α → Bool) :
    ∀ (l1 l2 : List α), (∀ x ∈ l1, p x = false) →
      List.find? p (l1 ++ l2) = List.find? p l2
  | [], l2, _ => rfl
  | x :: l1, l2, h => by
    rw [List.cons_append,
      List.find?_cons_of_neg _ (by simp [h x (List.mem_cons_self _ _)]),
      find?_append_of_none p l1 l2 (fun y hy => h y (List.mem_cons_of_mem _ hy))]

theorem map_id_of_eq {α : Type} (f : α → α) :
    ∀ l : List α, (∀ x ∈ l, f x = x) → l.map f = l
  | [], _ => rfl
  | x :: l, h => by
    rw [List.map_cons, h x (List.mem_cons_self _ _),
      map_id_of_eq f l (fun y hy => h y (List.mem_cons_of_mem _ hy))]

/-- Claim C1 (counterexample): the claim fails on the code.  Register
`did:x:a` with one capability described `"echo"` (200, rows written), then
discover with `query = "echo"` at a wall-clock time beyond twice the
heartbeat TTL: the freshly registered agent has `last_seen` null and
availability 0, so the availability gate forces 0 and the filter drops the
hit — the result list is empty and contains no hit with
`agentDid = did:x:a`. -/
theorem register_discover_counterexample :
    (register vfFalse freshU ⟨[], []⟩ [] bodyFresh).1 = 200 ∧
    discover defaultConfig (register vfFalse freshU ⟨[], []⟩ [] bodyFresh).2.1
      [] 1000000 "echo" 0 = [] := by
  constructor
  · decide
  · decide

/-- Claim C1 (amended): register → discover round trip through a heartbeat.
Freshly register `did = X` (card-less, one capability `capId` with
description `D`, truthy endpoint) — the call succeeds with 200 — and let the
agent send one availability heartbeat with `availability = a > 0` and
`last_seen = ls` not stale at discovery time (`now - ls ≤ 2 · TTL`).  Then a
discovery with `query = D` and the default `minReputation = 0` returns a
result list containing a hit with `agentDid = X`, whatever the vector hit
list is (the lexical substring fallback matches `D` against itself).
Without the heartbeat the availability gate drops the fresh agent (see the
counterexample). -/
theorem register_discover_roundtrip (verify : ACard → String → Bool)
    (fresh : Nat → String) (db0 : Db) (vdb0 : List VPoint) (cfg : Config)
    (X capId D ep : String) (tags : Option (List String))
    (inS outS nm wl : Option String)
    (vhits : List Hit) (now ls : ℤ) (a : ℚ)
    (hfresh : ∀ r ∈ db0.agents, r.did ≠ X)
    (hXne : X ≠ "") (hXp : '|' ∉ X.data) (hcp : '|' ∉ capId.data)
    (hcne : capId ≠ "")
    (hep : jsTruthyS (normalizeEndpoint (some ep)) = true)
    (ha : 0 < a)
    (hstale : ¬ (now - ls > cfg.heartbeatTTL * 2)) :
    (register verify fresh db0 vdb0
        { did := X, name := nm, endpoint := some ep, walletAddress := wl
          capabilities := [⟨some capId, none, D, tags, inS, outS⟩]
          acard := none, acard_signature := none }).1 = 200 ∧
    ∃ r ∈ discover cfg
        (applyAvailability
          (register verify fresh db0 vdb0
            { did := X, name := nm, endpoint := some ep, walletAddress := wl
              capabilities := [⟨some capId, none, D, tags, inS, outS⟩]
              acard := none, acard_signature := none }).2.1
          X a (some ls) now)
        vhits now D 0,
      r.agentDid = some X := by
  set b : RegisterBody :=
    { did := X, name := nm, endpoint := some ep, walletAddress := wl
      capabilities := [⟨some capId, none, D, tags, inS, outS⟩]
      acard := none, acard_signature := none } with hb
  set u : AgentUpsert :=
    { did := X, name := strFalsy nm, endpoint := normalizeEndpoint (some ep)
      public_key := none
      wallet_address := strFalsy (wl.map lowerStr)
      acard_version := none, acard_lineage := none
      acard_signature := none, acard_raw := none } with hu
  set capN : NormCap := ⟨capId, D, tags.getD [], inS, outS⟩ with hcapN
  set capRow : CapRow := ⟨X, capId, D, tags.getD [], outS⟩ with hcapRow
  have hcaps : normCaps fresh b.capabilities = [capN] := by
    simp [normCaps, strFalsy, hcne, List.enum, hcapN]
  have hany : (db0.agents.any (fun r => r.did == u.did)) = false := by
    apply List.any_eq_false.mpr
    intro r hr
    simp [hu, hfresh r hr]
  have hreg : register verify fresh db0 vdb0 b =
      (200,
        ⟨db0.agents ++ [freshAgentRow u],
          db0.capabilities.filter (fun c => !(c.agent_did == X)) ++ [capRow]⟩,
        vdb0.filter (fun p => !(p.agentDid == X)) ++
          [⟨X, capId, D, tags.getD []⟩]) := by
    rw [register]
    simp only [hb]
    rw [hcaps]
    simp [hep, registerWrites, upsertAgent, hany, hu, hcapN, hcapRow,
      show jsTruthyS none = false from rfl]
  set rowX : AgentRow :=
    { freshAgentRow u with availability_score := some a, last_seen := some ls }
    with hrowX
  set caps2 : List CapRow :=
    db0.capabilities.filter (fun c => !(c.agent_did == X)) ++ [capRow] with hcaps2
  have hdb2 : applyAvailability (register verify fresh db0 vdb0 b).2.1 X a (some ls) now
      = ⟨db0.agents ++ [rowX], caps2⟩ := by
    rw [hreg]
    simp only [applyAvailability, List.map_append]
    congr 1
    congr 1
    · exact map_id_of_eq _ _ (fun r hr => by simp [hfresh r hr])
    · simp [freshAgentRow, hu, hrowX]
  have hfind : List.find? (fun r => r.did == X) (db0.agents ++ [rowX]) = some rowX := by
    rw [find?_append_of_none _ _ _ (fun r hr => by simp [hfresh r hr])]
    rw [List.find?_cons_of_pos _ (by simp [hrowX, freshAgentRow, hu])]
  have hkwmem :
      ({ score := Rat.divInt 9 20
         payload := { agentDid := some X, capabilityId := some capId
                      description := some D, tags := some (tags.getD [])
                      reputation := some 0, availability_score := some a
                      last_seen := some ls } } : Hit) ∈
        keywordHits ⟨db0.agents ++ [rowX], caps2⟩ D := by
    rw [keywordHits]
    apply List.mem_filterMap.mpr
    refine ⟨capRow, by simp [hcaps2], ?_⟩
    simp only [hcapRow]
    rw [hfind]
    simp [ilike_self D, hrowX, freshAgentRow, hu]
  set hitX : Hit :=
    { score := Rat.divInt 9 20
      payload := { agentDid := some X, capabilityId := some capId
                   description := some D, tags := some (tags.getD [])
                   reputation := some 0, availability_score := some a
                   last_seen := some ls } } with hhitX
  have hmerge : hitX ∈ vhits ++ keywordHits ⟨db0.agents ++ [rowX], caps2⟩ D :=
    List.mem_append_right _ hkwmem
  have hamap :
      agentsMapOf ⟨db0.agents ++ [rowX], caps2⟩
        (vhits ++ keywordHits ⟨db0.agents ++ [rowX], caps2⟩ D) X = some rowX := by
    rw [agentsMapOf]
    rw [if_pos ?_]
    · exact hfind
    · apply List.contains_iff_exists_mem_beq.mpr
      refine ⟨X, ?_, by simp⟩
      exact List.mem_filterMap.mpr ⟨hitX, hmerge, rfl⟩
  set amap := agentsMapOf ⟨db0.agents ++ [rowX], caps2⟩
    (vhits ++ keywordHits ⟨db0.agents ++ [rowX], caps2⟩ D) with hamapdef
  have hkeyX : dedupeKey (processHit cfg amap now hitX) = X ++ "|" ++ capId := by
    simp [processHit, dedupeKey, hhitX]
  obtain ⟨h0, hh0, hk0, hmem0⟩ :=
    dedupeHits_exists cfg amap now []
      (vhits ++ keywordHits ⟨db0.agents ++ [rowX], caps2⟩ D)
      (X ++ "|" ++ capId) (by simp) ⟨hitX, hmerge, hkeyX⟩
  have hagent : (processHit cfg amap now h0).agentDid = some X := by
    rw [dedupeKey] at hk0
    exact key_split _ _ X capId hXp hcp hXne hk0
  have hfield : (processHit cfg amap now h0).agentDid = h0.payload.agentDid := by
    simp [processHit]
  have hpd : h0.payload.agentDid = some X := by rw [← hfield]; exact hagent
  have he0avail : (processHit cfg amap now h0).availabilityScore = some (clamp01 a) := by
    have hav : (processHit cfg amap now h0).availabilityScore =
        availState cfg amap h0.payload.agentDid now := by
      simp [processHit]
    rw [hav, hpd]
    simp only [availState, Option.getD_some, hamap, hrowX, freshAgentRow, hu]
    simp [hstale]
  have hrepnn : (0 : ℚ) ≤ (processHit cfg amap now h0).reputationScore := by
    have : (processHit cfg amap now h0).reputationScore =
        clamp01 ((match h0.payload.reputation with
          | some r => some r
          | none => match h0.payload.agentDid with
            | some d => (amap d).bind (fun a2 => a2.reputation)
            | none => none).getD 0) := by
      simp [processHit]
    rw [this]
    exact clamp01_nonneg _
  have hkeep : keepResult 0 (processHit cfg amap now h0) = true := by
    rw [keepResult, Bool.and_eq_true]
    constructor
    · rw [he0avail]
      exact decide_eq_true (by simpa using (clamp01_pos_iff a).mpr ha)
    · exact decide_eq_true hrepnn
  refine ⟨by rw [hreg], ?_⟩
  rw [hdb2]
  refine ⟨processHit cfg amap now h0, ?_, hagent⟩
  rw [discover]
  apply (sortDesc_perm _).mem_iff.mpr
  apply List.mem_filter.mpr
  exact ⟨hmem0, hkeep⟩

/-- Witness for `register_discover_roundtrip`: the concrete round trip
`did:x:a` / `c1` / `"echo"` with a heartbeat `availability = 1` at
`ls = 900` and discovery at `now = 1000`. -/
theorem register_discover_roundtrip_witness :
    ∃ r ∈ discover defaultConfig
        (applyAvailability
          (register vfFalse freshU ⟨[], []⟩ []
            { did := "did:x:a", name := none, endpoint := some "http://h"
              walletAddress := none
              capabilities := [⟨some "c1", none, "echo", none, none, none⟩]
              acard := none, acard_signature := none }).2.1
          "did:x:a" 1 (some 900) 1000)
        [] 1000 "echo" 0,
      r.agentDid = some "did:x:a" :=
  (register_discover_roundtrip vfFalse freshU ⟨[], []⟩ [] defaultConfig
    "did:x:a" "c1" "echo" "http://h" none none none none none [] 1000 900 1
    (by simp) (by decide) (by decide) (by decide) (by decide) (by decide)
    (by decide) (by decide)).2

end Nooterra
